import Mathlib

/-!
Verification of `src/build_make_deck.py` (hubrix/make_deck).

The program reads a template script and two payload files, performs two
literal placeholder substitutions (Python `str.replace`), writes the result
to a temporary file `make_deck.new`, marks it `0o755`, and then either
discards the temporary file (destination `make_deck` already has the same
content) or renames it onto the destination.

Strings are embedded as `List Char`; the filesystem as a map from paths to
file states.  `pyReplace` embeds Python's `str.replace` for a nonempty
pattern: a single left-to-right scan replacing non-overlapping occurrences
(an empty pattern never arises in the program; for it `pyReplace` is the
identity, unlike Python, which is irrelevant here).
-/

set_option maxHeartbeats 1000000

/-- Embedding of Python `s.replace(old, new)` (nonempty `old`):
left-to-right scan, each non-overlapping occurrence of `old` replaced. -/
def pyReplace (old new : List Char) : List Char → List Char
  | [] => []
  | c :: cs =>
    if h : old ≠ [] ∧ old.isPrefixOf (c :: cs) then
      new ++ pyReplace old new (List.drop old.length (c :: cs))
    else
      c :: pyReplace old new cs
termination_by s => s.length
decreasing_by
  · have hlen : 0 < old.length := List.length_pos.mpr h.1
    simp only [List.length_drop, List.length_cons]
    omega
  · simp

/-- Number of (left-to-right, non-overlapping) occurrences of `old`,
following exactly the scan of `pyReplace`. -/
def countOccs (old : List Char) : List Char → Nat
  | [] => 0
  | c :: cs =>
    if h : old ≠ [] ∧ old.isPrefixOf (c :: cs) then
      countOccs old (List.drop old.length (c :: cs)) + 1
    else
      countOccs old cs
termination_by s => s.length
decreasing_by
  · have hlen : 0 < old.length := List.length_pos.mpr h.1
    simp only [List.length_drop, List.length_cons]
    omega
  · simp

/-- Prepend a character to the first piece of a split. -/
def consHead (c : Char) : List (List Char) → List (List Char)
  | [] => [[c]]
  | p :: ps => (c :: p) :: ps

/-- Split a string at the occurrences found by the `pyReplace` scan:
the pieces between (and around) the replaced occurrences of `old`. -/
def splitOnScan (old : List Char) : List Char → List (List Char)
  | [] => [[]]
  | c :: cs =>
    if h : old ≠ [] ∧ old.isPrefixOf (c :: cs) then
      [] :: splitOnScan old (List.drop old.length (c :: cs))
    else
      consHead c (splitOnScan old cs)
termination_by s => s.length
decreasing_by
  · have hlen : 0 < old.length := List.length_pos.mpr h.1
    simp only [List.length_drop, List.length_cons]
    omega
  · simp

/-- Join pieces with a separator between consecutive pieces. -/
def joinWith (sep : List Char) : List (List Char) → List Char
  | [] => []
  | [p] => p
  | p :: ps => p ++ sep ++ joinWith sep ps

/-- The test `occursB pat s` decides whether `pat` occurs in `s` as a contiguous
substring. -/
def occursB (pat : List Char) : List Char → Bool
  | [] => pat.isEmpty
  | c :: cs => pat.isPrefixOf (c :: cs) || occursB pat cs

/-- Placeholder token `__SIMPLE_BEAMER_CONTENT__` (line 24 of the source). -/
def simpleBeamerToken : List Char := "__SIMPLE_BEAMER_CONTENT__".data

/-- Placeholder token `__EXTRACT_PPTX_THEME_CONTENT__` (line 25). -/
def extractToken : List Char := "__EXTRACT_PPTX_THEME_CONTENT__".data

/-- Lines 24-25 of the source: the two substitutions, in program order. -/
def render (template simple extractor : List Char) : List Char :=
  pyReplace extractToken extractor (pyReplace simpleBeamerToken simple template)

/-- State of one path in the modelled filesystem: absent, present with
content and permission mode, or existing but unreadable (e.g. permission
denied on read). -/
inductive FileSt where
  | absent : FileSt
  | present : List Char → Nat → FileSt
  | unreadable : FileSt
deriving DecidableEq

/-- The filesystem: a map from paths to file states. -/
def FS : Type := String → FileSt

/-- Errors the program can raise while reading. -/
inductive Err where
  | fileNotFound : String → Err
  | readError : String → Err
deriving DecidableEq

/-- The two reported outcomes of a successful build. -/
inductive BuildResult where
  | updated : BuildResult
  | alreadyUpToDate : BuildResult
deriving DecidableEq

/-- Result of one run: success with a report, or an uncaught exception;
either way together with the filesystem left behind. -/
inductive Outcome where
  | ok : BuildResult → FS → Outcome
  | err : Err → FS → Outcome

def setFile (fs : FS) (p : String) (st : FileSt) : FS :=
  fun q => if q = p then st else fs q

/-- Python `open(p).read()`: content on success, `FileNotFoundError` if absent,
another `OSError` if unreadable. -/
def readF (fs : FS) (p : String) : Except Err (List Char) :=
  match fs p with
  | .present c _ => .ok c
  | .absent => .error (.fileNotFound p)
  | .unreadable => .error (.readError p)

/-- Python `open(p, "w").write(c)`: create or truncate; an existing file keeps its
mode, a new one gets the default mode. -/
def writeF (fs : FS) (p : String) (c : List Char) : FS :=
  setFile fs p (.present c (match fs p with | .present _ m => m | _ => 0o644))

/-- Python `os.chmod(p, m)`. -/
def chmodF (fs : FS) (p : String) (m : Nat) : FS :=
  setFile fs p (match fs p with | .present c _ => .present c m | st => st)

/-- Python `os.remove(p)`. -/
def removeF (fs : FS) (p : String) : FS := setFile fs p .absent

/-- Python `os.rename(src, dst)`. -/
def renameF (fs : FS) (src dst : String) : FS :=
  setFile (setFile fs dst (fs src)) src .absent

def templatePath : String := "make_deck.template.sh"

def simplePath : String := "pandoc/templates/simple_beamer.latex"

def extractorPath : String := "scripts/extract_pptx_theme.py"

def newPath : String := "make_deck.new"

def destPath : String := "make_deck"

/-- Lines 28-32 of the source: write the rendered output to `make_deck.new`
and mark it `0o755`. -/
def stage (fs : FS) (result : List Char) : FS :=
  chmodF (writeF fs newPath result) newPath 0o755

/-- Embedding of `main` (`src/build_make_deck.py`): read the three inputs,
substitute, stage the temporary file, then compare with `make_deck` and
remove or rename.  An uncaught exception carries the filesystem as it was
when raised. -/
def mainRun (fs : FS) : Outcome :=
  match readF fs templatePath with
  | .error e => .err e fs
  | .ok template_content =>
    match readF fs simplePath with
    | .error e => .err e fs
    | .ok simple_template =>
      match readF fs extractorPath with
      | .error e => .err e fs
      | .ok extractor_content =>
        let result := render template_content simple_template extractor_content
        let fs1 := stage fs result
        match fs1 destPath with
        | .present existing _ =>
          if existing = result then
            .ok .alreadyUpToDate (removeF fs1 newPath)
          else
            .ok .updated (renameF fs1 newPath destPath)
        | .absent => .ok .updated (renameF fs1 newPath destPath)
        | .unreadable => .err (.readError destPath) fs1

/-- Concrete filesystem for witnesses: empty input files, everything else
absent. -/
def wfs0 : FS := fun q =>
  if q = templatePath ∨ q = simplePath ∨ q = extractorPath then
    .present [] 0o644
  else .absent

/-- Concrete filesystem for witnesses: nothing exists. -/
def wfsbad : FS := fun _ => .absent

/-- Concrete filesystem for witnesses: destination already holds the
rendered (empty) output. -/
def wfsu : FS := fun q => if q = destPath then .present [] 0o644 else wfs0 q

/-- Concrete filesystem for witnesses: destination holds one byte `x`. -/
def wfsd : FS := fun q => if q = destPath then .present ['x'] 0o644 else wfs0 q

/-- Bridge between the boolean prefix test and the prefix relation. -/
theorem isPrefixOf_eq_true {l₁ l₂ : List Char} :
    l₁.isPrefixOf l₂ = true ↔ l₁ <+: l₂ :=
  List.isPrefixOf_iff_prefix

theorem splitOnScan_ne_nil (old : List Char) (s : List Char) :
    splitOnScan old s ≠ [] := by
  induction s using splitOnScan.induct old with
  | case1 => simp [splitOnScan]
  | case2 c cs h ih => simp [splitOnScan, h]
  | case3 c cs h ih =>
    simp only [splitOnScan, dif_neg h]
    cases hs : splitOnScan old cs with
    | nil => exact absurd hs ih
    | cons p ps => simp [consHead]

theorem joinWith_consHead (sep : List Char) (c : Char) (L : List (List Char))
    (hL : L ≠ []) : joinWith sep (consHead c L) = c :: joinWith sep L := by
  match L with
  | [] => exact absurd rfl hL
  | [p] => simp [consHead, joinWith]
  | p :: q :: ps => simp [consHead, joinWith]

theorem isPrefixOf_append_drop {old s : List Char} (h : old.isPrefixOf s = true) :
    old ++ List.drop old.length s = s := by
  rcases isPrefixOf_eq_true.mp h with ⟨t, ht⟩
  subst ht
  rw [List.drop_left]

theorem joinWith_splitOnScan (old : List Char) (s : List Char) :
    joinWith old (splitOnScan old s) = s := by
  induction s using splitOnScan.induct old with
  | case1 => simp [splitOnScan, joinWith]
  | case2 c cs h ih =>
    simp only [splitOnScan, dif_pos h]
    cases hs : splitOnScan old (List.drop old.length (c :: cs)) with
    | nil => exact absurd hs (splitOnScan_ne_nil old _)
    | cons p ps =>
      rw [hs] at ih
      simp only [joinWith, List.nil_append, ih]
      exact isPrefixOf_append_drop h.2
  | case3 c cs h ih =>
    simp only [splitOnScan, dif_neg h]
    rw [joinWith_consHead old c _ (splitOnScan_ne_nil old cs), ih]

theorem pyReplace_eq_joinWith (old new : List Char) (s : List Char) :
    pyReplace old new s = joinWith new (splitOnScan old s) := by
  induction s using splitOnScan.induct old with
  | case1 => simp [splitOnScan, pyReplace, joinWith]
  | case2 c cs h ih =>
    simp only [pyReplace, splitOnScan, dif_pos h]
    cases hs : splitOnScan old (List.drop old.length (c :: cs)) with
    | nil => exact absurd hs (splitOnScan_ne_nil old _)
    | cons p ps =>
      rw [hs] at ih
      simp [joinWith, ih]
  | case3 c cs h ih =>
    simp only [pyReplace, splitOnScan, dif_neg h]
    rw [joinWith_consHead new c _ (splitOnScan_ne_nil old cs), ih]

theorem length_splitOnScan (old : List Char) (s : List Char) :
    (splitOnScan old s).length = countOccs old s + 1 := by
  induction s using splitOnScan.induct old with
  | case1 => simp [splitOnScan, countOccs]
  | case2 c cs h ih =>
    simp only [splitOnScan, countOccs, dif_pos h, List.length_cons, ih]
  | case3 c cs h ih =>
    simp only [splitOnScan, countOccs, dif_neg h]
    cases hs : splitOnScan old cs with
    | nil => exact absurd hs (splitOnScan_ne_nil old cs)
    | cons p ps =>
      rw [hs] at ih
      simpa [consHead] using ih

theorem splitOnScan_head_pfx (old : List Char) (s : List Char) :
    ∃ q qs, splitOnScan old s = q :: qs ∧ q <+: s := by
  induction s using splitOnScan.induct old with
  | case1 => exact ⟨[], [], by simp [splitOnScan]⟩
  | case2 c cs h ih =>
    exact ⟨[], splitOnScan old (List.drop old.length (c :: cs)),
      by simp only [splitOnScan, dif_pos h], List.nil_prefix⟩
  | case3 c cs h ih =>
    rcases ih with ⟨q, qs, hq, hpfx⟩
    refine ⟨c :: q, qs, ?_, ?_⟩
    · simp only [splitOnScan, dif_neg h, hq, consHead]
    · exact List.cons_prefix_cons.mpr ⟨rfl, hpfx⟩

theorem occursB_eq_false_of_mem_splitOnScan (old : List Char) (hold : old ≠ [])
    (s : List Char) : ∀ p ∈ splitOnScan old s, occursB old p = false := by
  induction s using splitOnScan.induct old with
  | case1 =>
    intro p hp
    simp only [splitOnScan, List.mem_singleton] at hp
    subst hp
    simp [occursB, List.isEmpty_iff, hold]
  | case2 c cs h ih =>
    intro p hp
    simp only [splitOnScan, dif_pos h, List.mem_cons] at hp
    rcases hp with rfl | hp
    · simp [occursB, List.isEmpty_iff, hold]
    · exact ih p hp
  | case3 c cs h ih =>
    intro p hp
    rcases splitOnScan_head_pfx old cs with ⟨q, qs, hq, hpfx⟩
    simp only [splitOnScan, dif_neg h, hq, consHead, List.mem_cons] at hp
    rcases hp with rfl | hp
    · have hq_mem : q ∈ splitOnScan old cs := by
        rw [hq]; exact List.mem_cons_self q qs
      have hqocc : occursB old q = false := ih q hq_mem
      have hnotpre : old.isPrefixOf (c :: q) = false := by
        rw [Bool.eq_false_iff]
        intro hcontra
        have h1 : old <+: c :: q := isPrefixOf_eq_true.mp hcontra
        have h2 : (c :: q) <+: (c :: cs) := List.cons_prefix_cons.mpr ⟨rfl, hpfx⟩
        exact h ⟨hold, isPrefixOf_eq_true.mpr (h1.trans h2)⟩
      simp [occursB, hnotpre, hqocc]
    · exact ih p (hq ▸ List.mem_cons_of_mem q hp)

theorem pyReplace_of_not_occurs (old new : List Char) (s : List Char)
    (h : occursB old s = false) : pyReplace old new s = s := by
  induction s with
  | nil => simp [pyReplace]
  | cons c cs ih =>
    simp only [occursB, Bool.or_eq_false_iff] at h
    have hcond : ¬(old ≠ [] ∧ old.isPrefixOf (c :: cs) = true) := by
      intro hc
      rw [h.1] at hc
      exact Bool.false_ne_true hc.2
    simp only [pyReplace, dif_neg hcond]
    rw [ih h.2]

theorem pyReplace_self (old new : List Char) (hold : old ≠ []) :
    pyReplace old new old = new := by
  cases old with
  | nil => exact absurd rfl hold
  | cons c cs =>
    have hcond : (c :: cs : List Char) ≠ [] ∧
        (c :: cs).isPrefixOf (c :: cs) = true :=
      ⟨List.cons_ne_nil c cs, isPrefixOf_eq_true.mpr List.prefix_rfl⟩
    simp only [pyReplace, dif_pos hcond]
    rw [List.drop_length]
    simp [pyReplace]

theorem pyReplace_of_countOccs_zero (old new : List Char) (s : List Char)
    (h : countOccs old s = 0) : pyReplace old new s = s := by
  have hlen : (splitOnScan old s).length = 1 := by
    rw [length_splitOnScan, h]
  cases hs : splitOnScan old s with
  | nil => exact absurd hs (splitOnScan_ne_nil old s)
  | cons q qs =>
    rw [hs] at hlen
    simp only [List.length_cons, Nat.add_left_eq_self, List.length_eq_zero] at hlen
    subst hlen
    have h1 := joinWith_splitOnScan old s
    rw [hs] at h1
    simp only [joinWith] at h1
    rw [pyReplace_eq_joinWith, hs]
    simpa [joinWith] using h1

theorem stage_at_newPath (fs : FS) (r : List Char) :
    stage fs r newPath = .present r 0o755 := by
  simp [stage, chmodF, writeF, setFile]

theorem stage_at_other (fs : FS) (r : List Char) (q : String) (hq : q ≠ newPath) :
    stage fs r q = fs q := by
  simp [stage, chmodF, writeF, setFile, hq]

theorem destPath_ne_newPath : destPath ≠ newPath := by decide

theorem stage_at_dest (fs : FS) (r : List Char) :
    stage fs r destPath = fs destPath :=
  stage_at_other fs r destPath destPath_ne_newPath

theorem mainRun_uptodate (fs : FS) (t s e : List Char) (m : Nat)
    (ht : readF fs templatePath = .ok t)
    (hs : readF fs simplePath = .ok s)
    (he : readF fs extractorPath = .ok e)
    (hd : fs destPath = .present (render t s e) m) :
    mainRun fs = .ok .alreadyUpToDate (removeF (stage fs (render t s e)) newPath) := by
  simp only [mainRun, ht, hs, he]
  rw [stage_at_dest, hd]
  simp

theorem mainRun_updated_present (fs : FS) (t s e c : List Char) (m : Nat)
    (ht : readF fs templatePath = .ok t)
    (hs : readF fs simplePath = .ok s)
    (he : readF fs extractorPath = .ok e)
    (hd : fs destPath = .present c m) (hne : c ≠ render t s e) :
    mainRun fs = .ok .updated (renameF (stage fs (render t s e)) newPath destPath) := by
  simp only [mainRun, ht, hs, he]
  rw [stage_at_dest, hd]
  simp [hne]

theorem mainRun_updated_absent (fs : FS) (t s e : List Char)
    (ht : readF fs templatePath = .ok t)
    (hs : readF fs simplePath = .ok s)
    (he : readF fs extractorPath = .ok e)
    (hd : fs destPath = .absent) :
    mainRun fs = .ok .updated (renameF (stage fs (render t s e)) newPath destPath) := by
  simp only [mainRun, ht, hs, he]
  rw [stage_at_dest, hd]

theorem mainRun_err_dest (fs : FS) (t s e : List Char)
    (ht : readF fs templatePath = .ok t)
    (hs : readF fs simplePath = .ok s)
    (he : readF fs extractorPath = .ok e)
    (hd : fs destPath = .unreadable) :
    mainRun fs = .err (.readError destPath) (stage fs (render t s e)) := by
  simp only [mainRun, ht, hs, he]
  rw [stage_at_dest, hd]

theorem removeF_stage_at (fs : FS) (out : List Char) (q : String) :
    removeF (stage fs out) newPath q = if q = newPath then .absent else fs q := by
  by_cases hq : q = newPath
  · simp [removeF, setFile, hq]
  · simp [removeF, setFile, hq, stage_at_other fs out q hq]

theorem renameF_stage_at (fs : FS) (out : List Char) (q : String) :
    renameF (stage fs out) newPath destPath q =
      if q = newPath then .absent
      else if q = destPath then .present out 0o755
      else fs q := by
  by_cases hq : q = newPath
  · simp [renameF, setFile, hq]
  · by_cases hd : q = destPath
    · simp [renameF, setFile, hq, hd, destPath_ne_newPath, stage_at_newPath]
    · simp [renameF, setFile, hq, hd, stage_at_other fs out q hq]

theorem mainRun_input_err (fs : FS)
    (hbad : (∃ e, readF fs templatePath = .error e) ∨
            (∃ e, readF fs simplePath = .error e) ∨
            (∃ e, readF fs extractorPath = .error e)) :
    ∃ e, mainRun fs = .err e fs := by
  cases h1 : readF fs templatePath with
  | error e => exact ⟨e, by simp only [mainRun, h1]⟩
  | ok t =>
    cases h2 : readF fs simplePath with
    | error e => exact ⟨e, by simp only [mainRun, h1, h2]⟩
    | ok s =>
      cases h3 : readF fs extractorPath with
      | error e => exact ⟨e, by simp only [mainRun, h1, h2, h3]⟩
      | ok e' =>
        rcases hbad with ⟨e, he⟩ | ⟨e, he⟩ | ⟨e, he⟩ <;> simp_all

theorem mainRun_ok_cases (fs : FS) (r : BuildResult) (fs' : FS)
    (hrun : mainRun fs = .ok r fs') :
    ∃ t s e, readF fs templatePath = .ok t ∧ readF fs simplePath = .ok s ∧
      readF fs extractorPath = .ok e ∧
      ((r = .alreadyUpToDate ∧ fs' = removeF (stage fs (render t s e)) newPath) ∨
       (r = .updated ∧ fs' = renameF (stage fs (render t s e)) newPath destPath)) := by
  cases h1 : readF fs templatePath with
  | error e =>
    simp only [mainRun, h1] at hrun
    exact Outcome.noConfusion hrun
  | ok t =>
    cases h2 : readF fs simplePath with
    | error e =>
      simp only [mainRun, h1, h2] at hrun
      exact Outcome.noConfusion hrun
    | ok s =>
      cases h3 : readF fs extractorPath with
      | error e =>
        simp only [mainRun, h1, h2, h3] at hrun
        exact Outcome.noConfusion hrun
      | ok e' =>
        refine ⟨t, s, e', rfl, rfl, rfl, ?_⟩
        cases hd : fs destPath with
        | present c m =>
          by_cases hc : c = render t s e'
          · subst hc
            rw [mainRun_uptodate fs t s e' m h1 h2 h3 hd] at hrun
            injection hrun with hr hf
            exact Or.inl ⟨hr.symm, hf.symm⟩
          · rw [mainRun_updated_present fs t s e' c m h1 h2 h3 hd hc] at hrun
            injection hrun with hr hf
            exact Or.inr ⟨hr.symm, hf.symm⟩
        | absent =>
          rw [mainRun_updated_absent fs t s e' h1 h2 h3 hd] at hrun
          injection hrun with hr hf
          exact Or.inr ⟨hr.symm, hf.symm⟩
        | unreadable =>
          rw [mainRun_err_dest fs t s e' h1 h2 h3 hd] at hrun
          exact Outcome.noConfusion hrun

theorem countOccs_self (old : List Char) (hold : old ≠ []) :
    countOccs old old = 1 := by
  cases old with
  | nil => exact absurd rfl hold
  | cons c cs =>
    have hcond : (c :: cs : List Char) ≠ [] ∧
        (c :: cs).isPrefixOf (c :: cs) = true :=
      ⟨List.cons_ne_nil c cs, isPrefixOf_eq_true.mpr List.prefix_rfl⟩
    simp only [countOccs, dif_pos hcond]
    rw [List.drop_length]
    simp [countOccs]

/-- C1 (amended): a substitution step replaces every left-to-right,
non-overlapping occurrence of a nonempty placeholder `old`: the template
splits as pieces (none containing `old`) joined by `old`, with exactly
`countOccs old s` occurrences, and the output is the same pieces joined by
the payload `new`; a zero-occurrence placeholder is a no-op. -/
theorem substitution_characterization (old new s : List Char) (hold : old ≠ []) :
    s = joinWith old (splitOnScan old s) ∧
    pyReplace old new s = joinWith new (splitOnScan old s) ∧
    (splitOnScan old s).length = countOccs old s + 1 ∧
    (∀ p ∈ splitOnScan old s, occursB old p = false) ∧
    (countOccs old s = 0 → pyReplace old new s = s) :=
  ⟨(joinWith_splitOnScan old s).symm, pyReplace_eq_joinWith old new s,
   length_splitOnScan old s, occursB_eq_false_of_mem_splitOnScan old hold s,
   pyReplace_of_countOccs_zero old new s⟩

/-- Witness for C1's theorem at the configured beamer placeholder. -/
theorem substitution_characterization_witness :
    simpleBeamerToken ≠ [] ∧
    (simpleBeamerToken = joinWith simpleBeamerToken (splitOnScan simpleBeamerToken simpleBeamerToken) ∧
     pyReplace simpleBeamerToken [] simpleBeamerToken =
       joinWith [] (splitOnScan simpleBeamerToken simpleBeamerToken) ∧
     (splitOnScan simpleBeamerToken simpleBeamerToken).length =
       countOccs simpleBeamerToken simpleBeamerToken + 1 ∧
     (∀ p ∈ splitOnScan simpleBeamerToken simpleBeamerToken,
        occursB simpleBeamerToken p = false) ∧
     (countOccs simpleBeamerToken simpleBeamerToken = 0 →
        pyReplace simpleBeamerToken [] simpleBeamerToken = simpleBeamerToken)) :=
  ⟨by decide, substitution_characterization simpleBeamerToken [] simpleBeamerToken (by decide)⟩

/-- Counterexample to C1 as stated: when the payload itself contains the
placeholder (here the beamer payload is the placeholder token itself, and
the extractor payload is empty), the placeholder occurs once in the
template but the rendered output still contains an occurrence of it. -/
theorem substitution_exact_claim_cex :
    countOccs simpleBeamerToken simpleBeamerToken = 1 ∧
    occursB simpleBeamerToken
      (render simpleBeamerToken simpleBeamerToken []) = true := by
  have h1 : simpleBeamerToken ≠ [] := by decide
  have h2 : render simpleBeamerToken simpleBeamerToken [] = simpleBeamerToken := by
    rw [render, pyReplace_self _ _ h1]
    exact pyReplace_of_not_occurs _ _ _ (by decide)
  exact ⟨countOccs_self _ h1, by rw [h2]; decide⟩

/-- C10: the beamer substitution happens first, the extractor substitution
second, on the intermediate result: an occurrence of the extractor token
introduced by the beamer payload is replaced in the final output, while an
occurrence of the beamer token contained in the extractor payload survives
to the rendered output unreplaced. -/
theorem substitution_order :
    (∀ e : List Char, render simpleBeamerToken extractToken e = e) ∧
    (∀ s : List Char,
       render extractToken s simpleBeamerToken = simpleBeamerToken ∧
       occursB simpleBeamerToken (render extractToken s simpleBeamerToken) = true) := by
  have h1 : simpleBeamerToken ≠ [] := by decide
  have h2 : extractToken ≠ [] := by decide
  constructor
  · intro e
    rw [render, pyReplace_self _ _ h1, pyReplace_self _ _ h2]
  · intro s
    have hfix : pyReplace simpleBeamerToken s extractToken = extractToken :=
      pyReplace_of_not_occurs _ _ _ (by decide)
    have hout : render extractToken s simpleBeamerToken = simpleBeamerToken := by
      rw [render, hfix, pyReplace_self _ _ h2]
    exact ⟨hout, by rw [hout]; decide⟩

/-- C2: a successful run reports `AlreadyUpToDate` exactly when the
destination pre-exists with content identical to the rendered output; in
that case the temporary file is discarded and the destination left
untouched, otherwise the temporary file is renamed onto the destination and
the run reports `Updated`. -/
theorem uptodate_iff_dest_matches (fs : FS) (t s e : List Char)
    (r : BuildResult) (fs' : FS)
    (ht : readF fs templatePath = .ok t)
    (hs : readF fs simplePath = .ok s)
    (he : readF fs extractorPath = .ok e)
    (hrun : mainRun fs = .ok r fs') :
    (r = .alreadyUpToDate ↔ ∃ m, fs destPath = .present (render t s e) m) ∧
    (r = .alreadyUpToDate → fs' destPath = fs destPath ∧ fs' newPath = .absent) ∧
    (r = .updated → fs' destPath = .present (render t s e) 0o755 ∧ fs' newPath = .absent) := by
  cases hd : fs destPath with
  | present c m =>
    by_cases hc : c = render t s e
    · subst hc
      rw [mainRun_uptodate fs t s e m ht hs he hd] at hrun
      injection hrun with hr hf
      subst hr; subst hf
      refine ⟨⟨fun _ => ⟨m, rfl⟩, fun _ => rfl⟩, fun _ => ⟨?_, ?_⟩,
        fun hco => BuildResult.noConfusion hco⟩
      · rw [removeF_stage_at, if_neg destPath_ne_newPath]; exact hd
      · rw [removeF_stage_at, if_pos rfl]
    · rw [mainRun_updated_present fs t s e c m ht hs he hd hc] at hrun
      injection hrun with hr hf
      subst hr; subst hf
      refine ⟨⟨fun hco => BuildResult.noConfusion hco, ?_⟩,
        fun hco => BuildResult.noConfusion hco, fun _ => ⟨?_, ?_⟩⟩
      · rintro ⟨m', hm'⟩
        injection hm' with hcm _
        exact absurd hcm hc
      · rw [renameF_stage_at, if_neg destPath_ne_newPath, if_pos rfl]
      · rw [renameF_stage_at, if_pos rfl]
  | absent =>
    rw [mainRun_updated_absent fs t s e ht hs he hd] at hrun
    injection hrun with hr hf
    subst hr; subst hf
    refine ⟨⟨fun hco => BuildResult.noConfusion hco, ?_⟩,
      fun hco => BuildResult.noConfusion hco, fun _ => ⟨?_, ?_⟩⟩
    · rintro ⟨m', hm'⟩
      exact FileSt.noConfusion hm'
    · rw [renameF_stage_at, if_neg destPath_ne_newPath, if_pos rfl]
    · rw [renameF_stage_at, if_pos rfl]
  | unreadable =>
    rw [mainRun_err_dest fs t s e ht hs he hd] at hrun
    exact Outcome.noConfusion hrun

/-- Witness for C2's theorem: a concrete run with empty inputs and absent
destination reports `Updated`. -/
theorem uptodate_iff_dest_matches_witness :
    (readF wfs0 templatePath = .ok [] ∧ readF wfs0 simplePath = .ok [] ∧
     readF wfs0 extractorPath = .ok [] ∧
     mainRun wfs0 =
       .ok .updated (renameF (stage wfs0 (render [] [] [])) newPath destPath)) ∧
    ((BuildResult.updated = .alreadyUpToDate ↔
        ∃ m, wfs0 destPath = .present (render [] [] []) m) ∧
     (BuildResult.updated = .alreadyUpToDate →
        renameF (stage wfs0 (render [] [] [])) newPath destPath destPath = wfs0 destPath ∧
        renameF (stage wfs0 (render [] [] [])) newPath destPath newPath = .absent) ∧
     (BuildResult.updated = .updated →
        renameF (stage wfs0 (render [] [] [])) newPath destPath destPath =
          .present (render [] [] []) 0o755 ∧
        renameF (stage wfs0 (render [] [] [])) newPath destPath newPath = .absent)) :=
  ⟨⟨rfl, rfl, rfl, mainRun_updated_absent wfs0 [] [] [] rfl rfl rfl rfl⟩,
   uptodate_iff_dest_matches wfs0 [] [] [] _ _ rfl rfl rfl
     (mainRun_updated_absent wfs0 [] [] [] rfl rfl rfl rfl)⟩

/-- C3: with unchanged inputs and a destination that is absent or differs
from the rendered output, the first run reports `Updated`, a second run
reports `AlreadyUpToDate`, and the destination's state is the same after
both runs. -/
theorem builder_idempotent (fs : FS) (t s e : List Char)
    (ht : readF fs templatePath = .ok t)
    (hs : readF fs simplePath = .ok s)
    (he : readF fs extractorPath = .ok e)
    (hd : fs destPath = .absent ∨
          ∃ c m, fs destPath = .present c m ∧ c ≠ render t s e) :
    ∃ fs₁ fs₂, mainRun fs = .ok .updated fs₁ ∧
      mainRun fs₁ = .ok .alreadyUpToDate fs₂ ∧
      fs₂ destPath = fs₁ destPath := by
  set out := render t s e with hout
  set fs₁ := renameF (stage fs out) newPath destPath with hfs₁
  have hrun1 : mainRun fs = .ok .updated fs₁ := by
    rcases hd with hd | ⟨c, m, hd, hne⟩
    · exact mainRun_updated_absent fs t s e ht hs he hd
    · exact mainRun_updated_present fs t s e c m ht hs he hd hne
  have hother : ∀ q, q ≠ newPath → q ≠ destPath → fs₁ q = fs q := by
    intro q h1 h2
    rw [hfs₁, renameF_stage_at, if_neg h1, if_neg h2]
  have ht1 : readF fs₁ templatePath = .ok t := by
    rw [readF, hother templatePath (by decide) (by decide), ← readF, ht]
  have hs1 : readF fs₁ simplePath = .ok s := by
    rw [readF, hother simplePath (by decide) (by decide), ← readF, hs]
  have he1 : readF fs₁ extractorPath = .ok e := by
    rw [readF, hother extractorPath (by decide) (by decide), ← readF, he]
  have hd1 : fs₁ destPath = .present out 0o755 := by
    rw [hfs₁, renameF_stage_at, if_neg destPath_ne_newPath, if_pos rfl]
  have hrun2 : mainRun fs₁ = .ok .alreadyUpToDate (removeF (stage fs₁ out) newPath) :=
    mainRun_uptodate fs₁ t s e 0o755 ht1 hs1 he1 hd1
  refine ⟨fs₁, removeF (stage fs₁ out) newPath, hrun1, hrun2, ?_⟩
  rw [removeF_stage_at, if_neg destPath_ne_newPath]

/-- Witness for C3's theorem: empty inputs, destination absent. -/
theorem builder_idempotent_witness :
    (readF wfs0 templatePath = .ok [] ∧ readF wfs0 simplePath = .ok [] ∧
     readF wfs0 extractorPath = .ok [] ∧
     (wfs0 destPath = .absent ∨
      ∃ c m, wfs0 destPath = .present c m ∧ c ≠ render [] [] [])) ∧
    (∃ fs₁ fs₂, mainRun wfs0 = .ok .updated fs₁ ∧
       mainRun fs₁ = .ok .alreadyUpToDate fs₂ ∧ fs₂ destPath = fs₁ destPath) :=
  ⟨⟨rfl, rfl, rfl, Or.inl rfl⟩,
   builder_idempotent wfs0 [] [] [] rfl rfl rfl (Or.inl rfl)⟩

/-- C4: if the template or either payload source is missing or unreadable,
the run raises a read error before any write: the filesystem — in
particular the destination — is exactly as it was. -/
theorem input_failure_no_write (fs : FS)
    (hbad : fs templatePath = .absent ∨ fs templatePath = .unreadable ∨
            fs simplePath = .absent ∨ fs simplePath = .unreadable ∨
            fs extractorPath = .absent ∨ fs extractorPath = .unreadable) :
    ∃ e, mainRun fs = .err e fs := by
  apply mainRun_input_err
  rcases hbad with h | h | h | h | h | h
  · exact Or.inl ⟨.fileNotFound templatePath, by simp only [readF, h]⟩
  · exact Or.inl ⟨.readError templatePath, by simp only [readF, h]⟩
  · exact Or.inr (Or.inl ⟨.fileNotFound simplePath, by simp only [readF, h]⟩)
  · exact Or.inr (Or.inl ⟨.readError simplePath, by simp only [readF, h]⟩)
  · exact Or.inr (Or.inr ⟨.fileNotFound extractorPath, by simp only [readF, h]⟩)
  · exact Or.inr (Or.inr ⟨.readError extractorPath, by simp only [readF, h]⟩)

/-- Witness for C4's theorem: all inputs missing. -/
theorem input_failure_no_write_witness :
    (wfsbad templatePath = .absent ∨ wfsbad templatePath = .unreadable ∨
     wfsbad simplePath = .absent ∨ wfsbad simplePath = .unreadable ∨
     wfsbad extractorPath = .absent ∨ wfsbad extractorPath = .unreadable) ∧
    (∃ e, mainRun wfsbad = .err e wfsbad) :=
  ⟨Or.inl rfl, input_failure_no_write wfsbad (Or.inl rfl)⟩

/-- C5: an absent destination is benign — the run proceeds to the update
branch and reports `Updated` — while an unreadable destination propagates
as a read error. -/
theorem dest_read_special_case (fs : FS) (t s e : List Char)
    (ht : readF fs templatePath = .ok t)
    (hs : readF fs simplePath = .ok s)
    (he : readF fs extractorPath = .ok e) :
    (fs destPath = .absent → ∃ fs', mainRun fs = .ok .updated fs') ∧
    (fs destPath = .unreadable →
       mainRun fs = .err (.readError destPath) (stage fs (render t s e))) :=
  ⟨fun hd => ⟨_, mainRun_updated_absent fs t s e ht hs he hd⟩,
   fun hd => mainRun_err_dest fs t s e ht hs he hd⟩

/-- Witness for C5's theorem. -/
theorem dest_read_special_case_witness :
    (readF wfs0 templatePath = .ok [] ∧ readF wfs0 simplePath = .ok [] ∧
     readF wfs0 extractorPath = .ok []) ∧
    ((wfs0 destPath = .absent → ∃ fs', mainRun wfs0 = .ok .updated fs') ∧
     (wfs0 destPath = .unreadable →
        mainRun wfs0 = .err (.readError destPath) (stage wfs0 (render [] [] [])))) :=
  ⟨⟨rfl, rfl, rfl⟩, dest_read_special_case wfs0 [] [] [] rfl rfl rfl⟩

/-- C6: a successful run never leaves the temporary file behind, and
touches no path other than the destination and the temporary path. -/
theorem temp_not_left_behind (fs : FS) (r : BuildResult) (fs' : FS)
    (hrun : mainRun fs = .ok r fs') :
    fs' newPath = .absent ∧
    ∀ q, q ≠ destPath → q ≠ newPath → fs' q = fs q := by
  rcases mainRun_ok_cases fs r fs' hrun with ⟨t, s, e, _, _, _, ⟨_, hf⟩ | ⟨_, hf⟩⟩
  · subst hf
    refine ⟨?_, ?_⟩
    · rw [removeF_stage_at, if_pos rfl]
    · intro q _ h2
      rw [removeF_stage_at, if_neg h2]
  · subst hf
    refine ⟨?_, ?_⟩
    · rw [renameF_stage_at, if_pos rfl]
    · intro q h1 h2
      rw [renameF_stage_at, if_neg h2, if_neg h1]

/-- Witness for C6's theorem. -/
theorem temp_not_left_behind_witness :
    mainRun wfs0 =
      .ok .updated (renameF (stage wfs0 (render [] [] [])) newPath destPath) ∧
    (renameF (stage wfs0 (render [] [] [])) newPath destPath newPath = .absent ∧
     ∀ q, q ≠ destPath → q ≠ newPath →
       renameF (stage wfs0 (render [] [] [])) newPath destPath q = wfs0 q) :=
  ⟨mainRun_updated_absent wfs0 [] [] [] rfl rfl rfl rfl,
   temp_not_left_behind wfs0 .updated _
     (mainRun_updated_absent wfs0 [] [] [] rfl rfl rfl rfl)⟩

/-- C7: when the destination pre-exists with exactly the rendered content,
the run reports `AlreadyUpToDate` and the destination's state (content and
mode) is untouched. -/
theorem dest_untouched_when_uptodate (fs : FS) (t s e : List Char) (m : Nat)
    (ht : readF fs templatePath = .ok t)
    (hs : readF fs simplePath = .ok s)
    (he : readF fs extractorPath = .ok e)
    (hd : fs destPath = .present (render t s e) m) :
    ∃ fs', mainRun fs = .ok .alreadyUpToDate fs' ∧ fs' destPath = fs destPath :=
  ⟨_, mainRun_uptodate fs t s e m ht hs he hd,
   by rw [removeF_stage_at, if_neg destPath_ne_newPath]⟩

theorem render_nil : render [] [] [] = [] := by
  simp [render, pyReplace]

/-- Witness for C7's theorem: destination already holds the rendered
(empty) output. -/
theorem dest_untouched_when_uptodate_witness :
    (readF wfsu templatePath = .ok [] ∧ readF wfsu simplePath = .ok [] ∧
     readF wfsu extractorPath = .ok [] ∧
     wfsu destPath = .present (render [] [] []) 0o644) ∧
    (∃ fs', mainRun wfsu = .ok .alreadyUpToDate fs' ∧
       fs' destPath = wfsu destPath) := by
  have hd : wfsu destPath = .present (render [] [] []) 0o644 := by
    rw [render_nil]; rfl
  exact ⟨⟨rfl, rfl, rfl, hd⟩,
    dest_untouched_when_uptodate wfsu [] [] [] 0o644 rfl rfl rfl hd⟩

/-- C8: with a readable pre-existing destination, the up-to-date check is a
byte-for-byte comparison of the full contents: the run reports
`AlreadyUpToDate` exactly when the stored bytes equal the rendered output. -/
theorem compare_full_contents (fs : FS) (t s e c : List Char) (m : Nat)
    (r : BuildResult) (fs' : FS)
    (ht : readF fs templatePath = .ok t)
    (hs : readF fs simplePath = .ok s)
    (he : readF fs extractorPath = .ok e)
    (hd : fs destPath = .present c m)
    (hrun : mainRun fs = .ok r fs') :
    r = .alreadyUpToDate ↔ c = render t s e := by
  by_cases hc : c = render t s e
  · subst hc
    rw [mainRun_uptodate fs t s e m ht hs he hd] at hrun
    injection hrun with hr _
    exact ⟨fun _ => rfl, fun _ => hr.symm⟩
  · rw [mainRun_updated_present fs t s e c m ht hs he hd hc] at hrun
    injection hrun with hr _
    rw [← hr]
    exact ⟨fun hco => BuildResult.noConfusion hco, fun hcc => absurd hcc hc⟩

/-- Witness for C8's theorem: destination holds `"x"`, which differs from
the rendered (empty) output, so the run reports `Updated`. -/
theorem compare_full_contents_witness :
    (readF wfsd templatePath = .ok [] ∧ readF wfsd simplePath = .ok [] ∧
     readF wfsd extractorPath = .ok [] ∧
     wfsd destPath = .present ['x'] 0o644 ∧
     mainRun wfsd =
       .ok .updated (renameF (stage wfsd (render [] [] [])) newPath destPath)) ∧
    (BuildResult.updated = .alreadyUpToDate ↔ ['x'] = render [] [] []) := by
  have hne : ['x'] ≠ render [] [] [] := by
    rw [render_nil]; decide
  have hrun : mainRun wfsd =
      .ok .updated (renameF (stage wfsd (render [] [] [])) newPath destPath) :=
    mainRun_updated_present wfsd [] [] [] ['x'] 0o644 rfl rfl rfl rfl hne
  exact ⟨⟨rfl, rfl, rfl, rfl, hrun⟩,
    compare_full_contents wfsd [] [] [] ['x'] 0o644 .updated _ rfl rfl rfl rfl hrun⟩

/-- C9: the temporary path is distinct from the destination path, the
staged temporary file carries mode `0o755`, and after an `Updated` run the
destination has mode `0o755`, whose owner-execute bit is set. -/
theorem temp_distinct_and_executable (fs : FS) (fs' : FS) :
    newPath ≠ destPath ∧
    (∀ c, stage fs c newPath = .present c 0o755) ∧
    (mainRun fs = .ok .updated fs' →
       ∃ c, fs' destPath = .present c 0o755 ∧ Nat.testBit 0o755 6 = true) := by
  refine ⟨by decide, fun c => stage_at_newPath fs c, fun hrun => ?_⟩
  rcases mainRun_ok_cases fs .updated fs' hrun with
    ⟨t, s, e, _, _, _, ⟨hr, _⟩ | ⟨_, hf⟩⟩
  · exact BuildResult.noConfusion hr
  · subst hf
    exact ⟨render t s e,
      by rw [renameF_stage_at, if_neg destPath_ne_newPath, if_pos rfl],
      by decide⟩

/-- Witness for C9's theorem. -/
theorem temp_distinct_and_executable_witness :
    mainRun wfs0 =
      .ok .updated (renameF (stage wfs0 (render [] [] [])) newPath destPath) ∧
    (newPath ≠ destPath ∧
     (∀ c, stage wfs0 c newPath = .present c 0o755) ∧
     (mainRun wfs0 =
        .ok .updated (renameF (stage wfs0 (render [] [] [])) newPath destPath) →
      ∃ c, renameF (stage wfs0 (render [] [] [])) newPath destPath destPath =
             .present c 0o755 ∧ Nat.testBit 0o755 6 = true)) :=
  ⟨mainRun_updated_absent wfs0 [] [] [] rfl rfl rfl rfl,
   temp_distinct_and_executable wfs0 _⟩
